import Mathlib

/-!
Verification of the generation stream client of the agentic-writing-assistant
frontend (`frontend/src/lib/api.ts` and the `App.handleGenerate` completion
handling), via a shallow embedding of the relevant TypeScript into Lean.

Modelling conventions:
* JS strings are `List Char`; raw transport bytes are `List Nat` (each < 256).
* `JSON.parse` is a platform builtin, not repository code; the pipeline is
  parameterised over a function `parse : List Char → Option Json` where
  `none` models a parse exception.
* `TextDecoder` with `stream: true` is a byte-incremental UTF-8 transducer;
  it is embedded as a fold of a per-byte step function whose state is the
  pending (incomplete) multi-byte sequence.  Invalid sequences decode to
  U+FFFD; BOM stripping is not modelled (it does not affect any property
  proved here).
* Thrown-and-caught JS exceptions are `Except` errors that the surrounding
  handler maps back to the state the source code leaves behind.
-/

/-- JSON values, as returned by a successful `JSON.parse`. -/
inductive Json where
  | null : Json
  | bool : Bool → Json
  | num : Int → Json
  | str : String → Json
  | arr : List Json → Json
  | obj : List (String × Json) → Json
  deriving Repr

/-- JS member access `v[key]` on a parsed JSON value: accessing a property of
`null` throws a `TypeError` (modelled as `.error ()`); on any non-object
non-null value it yields `undefined` (modelled `.ok none`); on an object it is
a key lookup. -/
def jsGet : Json → String → Except Unit (Option Json)
  | .null, _ => .error ()
  | .obj fields, k => .ok (fields.lookup k)
  | _, _ => .ok none

/-- The JS strict comparison `v === 'complete'` applied to the (possibly
`undefined`) value of a property lookup: true exactly for the string
`"complete"`. -/
def isCompleteTag : Option Json → Bool
  | some (.str s) => s == "complete"
  | _ => false

/-- JS truthiness of a parsed JSON value (`if (v)`). -/
def jsTruthy : Json → Bool
  | .null => false
  | .bool b => b
  | .num n => n != 0
  | .str s => s != ""
  | .arr _ => true
  | .obj _ => true

/-- The observable state of one `generateWriting` session body: the `result`
variable (`none` covers both its initial `null` and an assigned `undefined`)
and the ordered list of arguments passed to the `onStatus` listener. -/
structure StreamState where
  result : Option Json
  sinkLog : List Json
  deriving Repr

/-- The characters of the SSE event marker `"data: "` checked by
`line.startsWith('data: ')`; its length 6 is what `line.slice(6)` removes. -/
def sseMarker : List Char := "data: ".data

/-- One iteration of the `for (const line of lines)` body of `generateWriting`
(api.ts:133–149).  A non-marked line is skipped; a marked line has its
remainder parsed inside `try { ... } catch { }`: a parse failure, or the
`TypeError` thrown by `data.type` when the parsed value is `null`, leaves the
state untouched; a value whose `type` property is `'complete'` assigns
`result = data.data` and forwards the value to `onStatus`; any other parsed
value is forwarded to `onStatus` unchanged. -/
def processLine (parse : List Char → Option Json) (st : StreamState)
    (line : List Char) : StreamState :=
  if sseMarker.isPrefixOf line then
    match parse (line.drop 6) with
    | none => st
    | some data =>
      match jsGet data "type" with
      | .error _ => st
      | .ok t =>
        if isCompleteTag t then
          match jsGet data "data" with
          | .error _ => st
          | .ok r => { result := r, sinkLog := st.sinkLog ++ [data] }
        else
          { st with sinkLog := st.sinkLog ++ [data] }
  else st

/-- The number of bytes of a UTF-8 sequence announced by its lead byte
(invalid leads are treated as length-1 garbage). -/
def utf8Len (b : Nat) : Nat :=
  if b < 0xC0 then 1
  else if b < 0xE0 then 2
  else if b < 0xF0 then 3
  else if b < 0xF8 then 4
  else 1

/-- U+FFFD, emitted by `TextDecoder` for malformed input. -/
def replacement : Char := Char.ofNat 0xFFFD

/-- Reassemble the code point of a complete UTF-8 sequence `lead :: conts`. -/
def utf8Assemble (lead : Nat) (conts : List Nat) : Char :=
  let headBits :=
    match conts.length with
    | 1 => lead % 32
    | 2 => lead % 16
    | 3 => lead % 8
    | _ => lead % 128
  Char.ofNat (conts.foldl (fun acc b => acc * 64 + b % 64) headBits)

/-- One byte of incremental UTF-8 decoding.  The state is the pending bytes of
an incomplete sequence (lead first); the step returns the new state and the
characters emitted by this byte. -/
def decodeStep (pending : List Nat) (b : Nat) : List Nat × List Char :=
  match pending with
  | [] =>
    if b < 0x80 then ([], [Char.ofNat b])
    else if b < 0xC0 then ([], [replacement])
    else if b < 0xF8 then ([b], [])
    else ([], [replacement])
  | lead :: conts =>
    if 0x80 ≤ b ∧ b < 0xC0 then
      if conts.length + 2 = utf8Len lead then ([], [utf8Assemble lead (conts ++ [b])])
      else (lead :: (conts ++ [b]), [])
    else
      if b < 0x80 then ([], [replacement, Char.ofNat b])
      else if b < 0xC0 then ([], [replacement, replacement])
      else if b < 0xF8 then ([b], [replacement])
      else ([], [replacement, replacement])

/-- Fold step threading the decoder state and accumulating emitted chars. -/
def decodeFold (acc : List Nat × List Char) (b : Nat) : List Nat × List Char :=
  (( decodeStep acc.1 b).1, acc.2 ++ (decodeStep acc.1 b).2)

/-- `decoder.decode(bytes, { stream: true })` from pending state `p`:
returns the new pending state and the decoded characters. -/
def decodeBytes (p : List Nat) (bs : List Nat) : List Nat × List Char :=
  bs.foldl decodeFold (p, [])

/-- `text.split('\n')` on JS strings: always a non-empty list of the
newline-free pieces, in order. -/
def splitNl : List Char → List (List Char)
  | [] => [[]]
  | c :: cs =>
    if c = '\n' then [] :: splitNl cs
    else
      match splitNl cs with
      | [] => [[c]]
      | l :: ls => (c :: l) :: ls

/-- The whole mutable state of the read loop of `generateWriting`: the
`TextDecoder`'s internal pending bytes, the `buffer` variable, and the
session state (`result` and the `onStatus` call log). -/
structure LoopState where
  pending : List Nat
  buffer : List Char
  sess : StreamState
  deriving Repr

/-- State at `generateWriting`'s loop entry (api.ts:119–122). -/
def initLoop : LoopState := ⟨[], [], ⟨none, []⟩⟩

/-- One iteration of `while (true)` for one delivered chunk (api.ts:125–150):
decode the chunk incrementally, append to `buffer`, split on `'\n'`, keep the
trailing piece as the new `buffer` (`lines.pop() || ''`), and process each
complete line in order. -/
def stepChunk (parse : List Char → Option Json) (s : LoopState)
    (chunk : List Nat) : LoopState :=
  let dec := decodeBytes s.pending chunk
  let pieces := splitNl (s.buffer ++ dec.2)
  { pending := dec.1
    buffer := pieces.getLastD []
    sess := pieces.dropLast.foldl (processLine parse) s.sess }

/-- The read loop over the whole sequence of chunks delivered before `done`. -/
def runChunks (parse : List Char → Option Json) (s : LoopState)
    (chunks : List (List Nat)) : LoopState :=
  chunks.foldl (stepChunk parse) s

/-- The two rejection causes of `generateWriting`. -/
inductive GenError where
  | connectionError : GenError
  | protocolError : GenError
  deriving DecidableEq, Repr

/-- The `Error` message thrown for each rejection cause (api.ts:116, 156). -/
def GenError.message : GenError → String
  | .connectionError => "Failed to start writing stream"
  | .protocolError => "No result received from stream"

/-- `generateWriting` (api.ts:108–160) as a function of the transport
outcome: `respOk` is `response.ok`, `chunks` the byte chunks delivered before
the reader reports `done`.  Returns the settled promise (`.ok` = resolution
value, `.error` = rejection) together with the full `onStatus` call log.
A non-ok response throws before any read; after the loop, `if (!result)`
(JS falsiness) throws the protocol error, otherwise `result` is returned. -/
def generateWriting (parse : List Char → Option Json) (respOk : Bool)
    (chunks : List (List Nat)) : Except GenError Json × List Json :=
  if respOk then
    let s := runChunks parse initLoop chunks
    match s.sess.result with
    | some r =>
      if jsTruthy r then (.ok r, s.sess.sinkLog)
      else (.error .protocolError, s.sess.sinkLog)
    | none => (.error .protocolError, s.sess.sinkLog)
  else (.error .connectionError, [])

/-- The complete lines the decoder hands to the parser over a whole stream
(the trailing unterminated piece stays in `buffer` and is dropped at end of
stream, matching api.ts never flushing it). -/
def linesOf (chunks : List (List Nat)) : List (List Char) :=
  (splitNl (decodeBytes [] chunks.flatten).2).dropLast

/-- Whether a decoded line is a completion frame: marked, parseable, and with
`type === 'complete'`. -/
def isCompletionLine (parse : List Char → Option Json) (line : List Char) : Bool :=
  sseMarker.isPrefixOf line &&
    match parse (line.drop 6) with
    | none => false
    | some v =>
      match jsGet v "type" with
      | .error _ => false
      | .ok t => isCompleteTag t

/-- Prepending the first piece of a split to a residue of earlier text:
`mergeFirst l (splitNl y)` is `splitNl (l ++ y)` when `l` is newline-free. -/
def mergeFirst (l : List Char) : List (List Char) → List (List Char)
  | [] => [l]
  | h :: t => (l ++ h) :: t

/-- The arguments `onStatus` receives for one line, as a function of the line
alone: empty when the line is skipped (unmarked, unparseable, or a `null`
whose property access throws), otherwise the parsed value. -/
def lineEmit (parse : List Char → Option Json) (line : List Char) : List Json :=
  if sseMarker.isPrefixOf line then
    match parse (line.drop 6) with
    | none => []
    | some v =>
      match jsGet v "type" with
      | .error _ => []
      | .ok t =>
        if isCompleteTag t then
          match jsGet v "data" with
          | .error _ => []
          | .ok _ => [v]
        else [v]
  else []

/-- The `result` variable after one line, as a function of the line and the
prior value alone: a completion frame overwrites it with its `data` property,
every other line leaves it unchanged. -/
def lineResult (parse : List Char → Option Json) (line : List Char)
    (r0 : Option Json) : Option Json :=
  if sseMarker.isPrefixOf line then
    match parse (line.drop 6) with
    | none => r0
    | some v =>
      match jsGet v "type" with
      | .error _ => r0
      | .ok t =>
        if isCompleteTag t then
          match jsGet v "data" with
          | .error _ => r0
          | .ok r => r
        else r0
  else r0

/-- One SSE frame on the wire: the marker, the JSON body, and the line break
that completes it. -/
def frameText (body : List Char) : List Char := sseMarker ++ body ++ ['\n']

/-- The text of a whole stream of frames. -/
def framesText (bodies : List (List Char)) : List Char :=
  (bodies.map frameText).flatten

/-- A valid progress event in the sense of the specification: a JSON object
carrying `stage`, `progress` and `message` properties and no completion
discriminator. -/
structure IsProgressEvent (v : Json) : Prop where
  isObj : ∃ fs, v = Json.obj fs
  hasStage : ∃ s, jsGet v "stage" = .ok (some s)
  hasProgress : ∃ p, jsGet v "progress" = .ok (some p)
  hasMessage : ∃ m, jsGet v "message" = .ok (some m)
  notComplete : ∀ t, jsGet v "type" = .ok t → isCompleteTag t = false

/-- The status snapshot set by `App.updateStatus` (the wall-clock `timestamp`
field is omitted from the model). -/
structure AppStatus where
  stage : String
  progress : Nat
  message : String
  details : Option String
  deriving Repr

/-- `handleGenerate`'s continuation once `generateWriting` settles (App.tsx):
on resolution it stores the response, prepends it to the first four entries
of the history, and reports stage `complete` at progress 100; on rejection it
leaves result and history untouched and reports stage `error` at progress 0
with the error message as details.  Returns (result, history, status). -/
def handleGenerateFinish (outcome : Except GenError Json)
    (history : List Json) : Option Json × List Json × AppStatus :=
  match outcome with
  | .ok response =>
    (some response, response :: history.take 4,
     ⟨"complete", 100, "Writing generation complete!", none⟩)
  | .error e =>
    (none, history, ⟨"error", 0, "Generation failed", some e.message⟩)

/-- A settled fetch response: its HTTP status and the outcome of
`response.json()` (`.error` = the parse rejected). -/
structure FetchResponse where
  status : Nat
  body : Except String Json

/-- `response.ok`: status in the inclusive range 200–299. -/
def FetchResponse.ok (r : FetchResponse) : Bool :=
  200 ≤ r.status && r.status ≤ 299

/-- The `try` block of `getProfile` (api.ts:96–100) up to the point where
control leaves it: `.error` is an exception raised inside the block (the
awaited fetch rejecting, or the explicit throw on a non-404 non-ok status)
and is what the `catch` sees; `.ok none` is the early `return null` on 404;
`.ok (some body)` is `return response.json()` — the promise returned
WITHOUT `await`, handed back still pending together with its eventual
settlement `body`. -/
def getProfileAttempt (resp : Except String FetchResponse) :
    Except String (Option (Except String Json)) :=
  match resp with
  | .error m => .error m
  | .ok r =>
    if r.status = 404 then .ok none
    else if r.ok then .ok (some r.body)
    else .error "Failed to get profile"

/-- `getProfile` (api.ts:95–104): every exception raised inside the `try` is
mapped to a resolved `null` by the `catch`, but the `response.json()` promise
is returned un-awaited, so it is adopted only after the `try`/`catch` has
exited: its rejection escapes the `catch` and the `getProfile` promise
rejects (`.error`) instead of resolving. -/
def getProfile (resp : Except String FetchResponse) :
    Except String (Option Json) :=
  match getProfileAttempt resp with
  | .error _ => .ok none
  | .ok none => .ok none
  | .ok (some body) =>
    match body with
    | .error m => .error m
    | .ok j => .ok (some j)

/-- A progress frame body's parsed value, used by concrete witnesses. -/
def progressVal : Json :=
  .obj [("stage", .str "writing"), ("progress", .num 40),
        ("message", .str "Drafting")]

/-- A successful generation result, used by concrete witnesses. -/
def completedResult : Json :=
  .obj [("status", .str "completed"), ("content", .str "Hello")]

/-- A completion frame body's parsed value, used by concrete witnesses. -/
def completeVal : Json := .obj [("type", .str "complete"), ("data", completedResult)]

/-- A failed generation result (`status: "failed"`), used by concrete
witnesses. -/
def failedResult : Json :=
  .obj [("status", .str "failed"), ("error", .str "generation failed")]

/-- Demo `JSON.parse` oracle for concrete witnesses: recognises the bodies
`A` (a completion frame), `B` (a progress frame), `N` (a bare number) and
`é` (a two-byte-character body), and fails on everything else. -/
def parseLines : List Char → Option Json := fun s =>
  if s = "A".data then some completeVal
  else if s = "B".data then some progressVal
  else if s = "N".data then some (.num 42)
  else if s = "é".data then some (.num 7)
  else none

theorem splitNl_ne_nil (x : List Char) : splitNl x ≠ [] := by
  cases x with
  | nil => simp [splitNl]
  | cons c cs =>
    simp only [splitNl]
    split
    · simp
    · split <;> simp

theorem getLastD_irrel {α : Type} (r : α) (rs : List α) (d d' : α) :
    (r :: rs).getLastD d = (r :: rs).getLastD d' := by
  cases rs with
  | nil => rfl
  | cons a t => simp only [List.getLastD_cons]

theorem getLastD_append_ne_nil {α : Type} (xs : List α) {ys : List α}
    (h : ys ≠ []) : ∀ d, (xs ++ ys).getLastD d = ys.getLastD d := by
  induction xs with
  | nil => intro d; rfl
  | cons a t ih =>
    intro d
    cases hys : ys with
    | nil => exact absurd hys h
    | cons b bs =>
      subst hys
      rw [List.cons_append, List.getLastD_cons, ih a]
      exact getLastD_irrel b bs a d

theorem dropLast_append_ne_nil {α : Type} (xs : List α) {ys : List α}
    (h : ys ≠ []) : (xs ++ ys).dropLast = xs ++ ys.dropLast := by
  cases hys : ys with
  | nil => exact absurd hys h
  | cons b bs => simp [List.dropLast_append_cons]

theorem splitNl_append (x y : List Char) :
    splitNl (x ++ y) =
      (splitNl x).dropLast ++ mergeFirst ((splitNl x).getLastD []) (splitNl y) := by
  induction x with
  | nil =>
    cases h : splitNl y with
    | nil => exact absurd h (splitNl_ne_nil y)
    | cons q qs => simp [splitNl, mergeFirst, h]
  | cons c cs ih =>
    have estep : ∀ z : List Char, ¬ c = '\n' →
        splitNl (c :: z) =
          (match splitNl z with
           | [] => [[c]]
           | l :: ls => (c :: l) :: ls) := by
      intro z hc
      simp [splitNl, hc]
    by_cases hc : c = '\n'
    · subst hc
      cases h : splitNl cs with
      | nil => exact absurd h (splitNl_ne_nil cs)
      | cons p ps =>
        have e1 : splitNl (('\n' : Char) :: (cs ++ y)) = [] :: splitNl (cs ++ y) := by
          simp [splitNl]
        have e2 : splitNl (('\n' : Char) :: cs) = [] :: p :: ps := by
          simp [splitNl, h]
        rw [List.cons_append, e1, e2, ih, h]
        simp only [List.dropLast_cons₂, List.getLastD_cons, List.cons_append]
    · cases h : splitNl cs with
      | nil => exact absurd h (splitNl_ne_nil cs)
      | cons p ps =>
        cases hy : splitNl y with
        | nil => exact absurd hy (splitNl_ne_nil y)
        | cons q qs =>
          cases ps with
          | nil =>
            have hz : splitNl (cs ++ y) = (p ++ q) :: qs := by
              rw [ih, h, hy]
              rfl
            have hr : splitNl (c :: cs) = [c :: p] := by
              rw [estep cs hc, h]
            rw [List.cons_append, estep (cs ++ y) hc, hz, hr]
            simp [mergeFirst, List.getLastD]
          | cons r rs =>
            have hz : splitNl (cs ++ y) =
                p :: ((r :: rs).dropLast ++
                  mergeFirst ((r :: rs).getLastD p) (q :: qs)) := by
              rw [ih, h, hy]
              simp only [List.dropLast_cons₂, List.getLastD_cons, List.cons_append]
            have hr : splitNl (c :: cs) = (c :: p) :: r :: rs := by
              rw [estep cs hc, h]
            rw [List.cons_append, estep (cs ++ y) hc, hz, hr]
            simp only [List.dropLast_cons₂, List.getLastD_cons, mergeFirst,
              List.cons_append]

theorem foldl_decodeFold (bs : List Nat) :
    ∀ (p : List Nat) (cs : List Char),
      bs.foldl decodeFold (p, cs) =
        ((decodeBytes p bs).1, cs ++ (decodeBytes p bs).2) := by
  induction bs with
  | nil => intro p cs; simp [decodeBytes]
  | cons b bs ih =>
    intro p cs
    simp only [decodeBytes, List.foldl_cons] at *
    rw [show decodeFold (p, cs) b =
          ((decodeStep p b).1, cs ++ (decodeStep p b).2) from rfl,
        show decodeFold (p, []) b =
          ((decodeStep p b).1, (decodeStep p b).2) from rfl,
        ih ((decodeStep p b).1) (cs ++ (decodeStep p b).2),
        ih ((decodeStep p b).1) ((decodeStep p b).2)]
    simp [List.append_assoc]

theorem decodeBytes_append (p : List Nat) (a b : List Nat) :
    decodeBytes p (a ++ b) =
      ((decodeBytes (decodeBytes p a).1 b).1,
       (decodeBytes p a).2 ++ (decodeBytes (decodeBytes p a).1 b).2) := by
  simp only [decodeBytes, List.foldl_append]
  rw [show a.foldl decodeFold (p, []) = decodeBytes p a from rfl]
  rw [show decodeBytes p a = ((decodeBytes p a).1, (decodeBytes p a).2) from rfl]
  exact foldl_decodeFold b (decodeBytes p a).1 (decodeBytes p a).2

/-- The trailing piece of a split never contains a newline. -/
theorem splitNl_getLastD_no_nl (x : List Char) :
    ('\n' : Char) ∉ (splitNl x).getLastD [] := by
  induction x with
  | nil => simp [splitNl]
  | cons c cs ih =>
    by_cases hc : c = '\n'
    · subst hc
      cases h : splitNl cs with
      | nil => exact absurd h (splitNl_ne_nil cs)
      | cons p ps =>
        rw [h] at ih
        simpa [splitNl, h, List.getLastD_cons] using ih
    · cases h : splitNl cs with
      | nil => exact absurd h (splitNl_ne_nil cs)
      | cons p ps =>
        rw [h] at ih
        cases ps with
        | nil =>
          simp only [splitNl, if_neg hc, h, List.getLastD_cons] at *
          simp_all [List.getLastD]
          exact Ne.symm hc
        | cons r rs =>
          simp only [splitNl, if_neg hc, h, List.getLastD_cons] at *
          exact ih

/-- A newline-free string splits into the single piece it is. -/
theorem splitNl_no_nl {l : List Char} (h : ('\n' : Char) ∉ l) :
    splitNl l = [l] := by
  induction l with
  | nil => rfl
  | cons c cs ih =>
    have hc : ¬ c = '\n' := fun e => h (e ▸ List.mem_cons_self c cs)
    have hcs : ('\n' : Char) ∉ cs := fun e => h (List.mem_cons_of_mem c e)
    simp [splitNl, hc, ih hcs]

theorem splitNl_no_nl_append {l : List Char} (h : ('\n' : Char) ∉ l)
    (y : List Char) : splitNl (l ++ y) = mergeFirst l (splitNl y) := by
  rw [splitNl_append, splitNl_no_nl h]
  rfl

/-- Delivering two chunks one after the other is the same as delivering their
concatenation: the loop body commutes with chunk concatenation. -/
theorem stepChunk_append (parse : List Char → Option Json) (s : LoopState)
    (a b : List Nat) :
    stepChunk parse s (a ++ b) = stepChunk parse (stepChunk parse s a) b := by
  have hnn : ('\n' : Char) ∉ (splitNl (s.buffer ++ (decodeBytes s.pending a).2)).getLastD [] :=
    splitNl_getLastD_no_nl _
  have hne : mergeFirst ((splitNl (s.buffer ++ (decodeBytes s.pending a).2)).getLastD [])
      (splitNl (decodeBytes (decodeBytes s.pending a).1 b).2) ≠ [] := by
    cases hsp : splitNl (decodeBytes (decodeBytes s.pending a).1 b).2 with
    | nil => exact absurd hsp (splitNl_ne_nil _)
    | cons q qs => simp [mergeFirst]
  simp only [stepChunk, decodeBytes_append]
  rw [show s.buffer ++ ((decodeBytes s.pending a).2 ++
        (decodeBytes (decodeBytes s.pending a).1 b).2) =
      (s.buffer ++ (decodeBytes s.pending a).2) ++
        (decodeBytes (decodeBytes s.pending a).1 b).2 from (List.append_assoc _ _ _).symm]
  rw [splitNl_append, splitNl_no_nl_append hnn]
  rw [getLastD_append_ne_nil _ hne, dropLast_append_ne_nil _ hne]
  rw [List.foldl_append]

/-- The whole read loop is determined by the concatenation of the delivered
chunks, provided the starting `buffer` holds no complete line (true of every
reachable state, in particular of `initLoop`). -/
theorem runChunks_flatten (parse : List Char → Option Json) (s : LoopState)
    (hb : ('\n' : Char) ∉ s.buffer) (chunks : List (List Nat)) :
    runChunks parse s chunks = stepChunk parse s chunks.flatten := by
  induction chunks generalizing s with
  | nil =>
    simp only [runChunks, List.foldl_nil, List.flatten_nil, stepChunk, decodeBytes,
      List.foldl_nil, List.append_nil]
    rw [splitNl_no_nl hb]
    rfl
  | cons c cs ih =>
    have hb2 : ('\n' : Char) ∉ (stepChunk parse s c).buffer :=
      splitNl_getLastD_no_nl _
    calc runChunks parse s (c :: cs)
        = runChunks parse (stepChunk parse s c) cs := rfl
      _ = stepChunk parse (stepChunk parse s c) cs.flatten := ih _ hb2
      _ = stepChunk parse s (c ++ cs.flatten) := (stepChunk_append parse s c cs.flatten).symm
      _ = stepChunk parse s (c :: cs).flatten := by rw [List.flatten_cons]

/-- The effect of one line on the session state factors through the line
alone: `result` is updated by `lineResult` and the sink log is extended by
`lineEmit`, independently of the prior state. -/
theorem processLine_factor (parse : List Char → Option Json)
    (st : StreamState) (line : List Char) :
    processLine parse st line =
      ⟨lineResult parse line st.result, st.sinkLog ++ lineEmit parse line⟩ := by
  obtain ⟨r0, log⟩ := st
  by_cases hm : sseMarker.isPrefixOf line
  · simp only [processLine, lineResult, lineEmit, if_pos hm]
    cases hp : parse (line.drop 6) with
    | none => simp
    | some v =>
      cases hg : jsGet v "type" with
      | error e => simp [hg]
      | ok t =>
        by_cases hct : isCompleteTag t
        · cases hd : jsGet v "data" with
          | error e => simp [hg, hct, hd]
          | ok r => simp [hg, hct, hd]
        · simp [hg, hct]
  · simp [processLine, lineResult, lineEmit, hm]

/-- C4: for every two ways of partitioning the same logical byte stream into
chunk sequences (including splits mid-line and mid-multi-byte-character),
`generateWriting` settles identically and performs the identical sequence of
`onStatus` invocations: decoding is chunk-boundary invariant. -/
theorem generateWriting_chunk_boundary_invariant
    (parse : List Char → Option Json) (respOk : Bool)
    (cs cs' : List (List Nat)) (h : cs.flatten = cs'.flatten) :
    generateWriting parse respOk cs = generateWriting parse respOk cs' := by
  have hb : ('\n' : Char) ∉ initLoop.buffer := by simp [initLoop]
  have hr : runChunks parse initLoop cs = runChunks parse initLoop cs' := by
    rw [runChunks_flatten parse initLoop hb cs,
        runChunks_flatten parse initLoop hb cs', h]
  simp only [generateWriting, hr]

/-- C4 witness: the bytes of `data: é\n` delivered whole, or split in the
middle of the two-byte character `é`, give identical outcomes. -/
theorem generateWriting_chunk_boundary_invariant_witness :
    ([[100, 97, 116, 97, 58, 32, 195], [169, 10]] : List (List Nat)).flatten =
      ([[100, 97, 116, 97, 58, 32, 195, 169, 10]] : List (List Nat)).flatten ∧
    generateWriting parseLines true [[100, 97, 116, 97, 58, 32, 195], [169, 10]] =
      generateWriting parseLines true [[100, 97, 116, 97, 58, 32, 195, 169, 10]] :=
  ⟨by decide,
   generateWriting_chunk_boundary_invariant parseLines true
     [[100, 97, 116, 97, 58, 32, 195], [169, 10]]
     [[100, 97, 116, 97, 58, 32, 195, 169, 10]] (by decide)⟩

/-- C2 counterexample: after a completion frame has been applied (the
session is in the terminal situation the claim describes: `result` is set),
a further progress frame still changes the session state — the sink is
invoked again — so applying an event after terminal is not a no-op. -/
theorem terminal_state_not_absorbing :
    processLine parseLines
        (processLine parseLines ⟨none, []⟩ "data: A".data) "data: B".data
      ≠ processLine parseLines ⟨none, []⟩ "data: A".data := by
  intro h
  have h2 := congrArg (fun s => s.sinkLog.length) h
  simp only at h2
  exact absurd h2 (by decide)

/-- C2 amended: the code has no terminal flag and absorbs nothing: the effect
of any event on the session state is the same whether or not a completion
frame was already applied — the update factors through the event alone, a
later completion frame overwrites `result`, and every forwarded value is
appended to the sink log even after completion. -/
theorem events_after_completion_still_applied (parse : List Char → Option Json)
    (st : StreamState) (line : List Char) :
    processLine parse st line =
      ⟨lineResult parse line st.result, st.sinkLog ++ lineEmit parse line⟩ :=
  processLine_factor parse st line

/-- C5: a line that does not start with `'data: '`, or one that does but
whose remainder fails to parse as JSON, leaves the session state unchanged —
`result` untouched and `onStatus` not invoked; the parse failure is swallowed
by the `catch`, so nothing is raised to the caller. -/
theorem invalid_lines_are_no_ops (parse : List Char → Option Json)
    (st : StreamState) (line : List Char) :
    (¬ sseMarker.isPrefixOf line → processLine parse st line = st) ∧
    (sseMarker.isPrefixOf line → parse (line.drop 6) = none →
      processLine parse st line = st) := by
  constructor
  · intro h
    simp [processLine, h]
  · intro hm hp
    simp [processLine, hm, hp]

/-- C5 witness: an unmarked line and a marked-but-unparseable line are both
no-ops on a concrete state. -/
theorem invalid_lines_are_no_ops_witness :
    processLine parseLines ⟨none, []⟩ "hello".data = ⟨none, []⟩ ∧
    processLine parseLines ⟨none, []⟩ "data: %%%".data = ⟨none, []⟩ :=
  ⟨(invalid_lines_are_no_ops parseLines ⟨none, []⟩ "hello".data).1 (by decide),
   (invalid_lines_are_no_ops parseLines ⟨none, []⟩ "data: %%%".data).2
     (by decide) (by rfl)⟩

/-- C6 counterexample: the parsed value `42` carries no completion
discriminator and has none of the `stage`/`progress`/`message` fields, yet it
is forwarded to the sink rather than dropped: the code performs no structural
check. -/
theorem nonstructural_value_reaches_sink :
    (processLine parseLines ⟨none, []⟩ "data: N".data).sinkLog = [Json.num 42] ∧
    processLine parseLines ⟨none, []⟩ "data: N".data ≠ (⟨none, []⟩ : StreamState) := by
  constructor
  · rfl
  · intro h
    have h2 := congrArg (fun s => s.sinkLog.length) h
    simp only at h2
    exact absurd h2 (by decide)

/-- C6 amended: classification of a successfully parsed value: a value whose
`type` property access throws (i.e. `null`) is dropped; a value whose `type`
is the string `complete` becomes the completion event (storing its `data`);
every other parsed value is forwarded to the sink, with no structural
`stage`/`progress`/`message` check. -/
theorem parsed_value_classification (parse : List Char → Option Json)
    (st : StreamState) (line : List Char) (v : Json)
    (hm : sseMarker.isPrefixOf line) (hp : parse (line.drop 6) = some v) :
    (jsGet v "type" = .error () → processLine parse st line = st) ∧
    (∀ t, jsGet v "type" = .ok t → isCompleteTag t = false →
      processLine parse st line = { st with sinkLog := st.sinkLog ++ [v] }) ∧
    (∀ t r, jsGet v "type" = .ok t → isCompleteTag t = true →
      jsGet v "data" = .ok r →
      processLine parse st line = ⟨r, st.sinkLog ++ [v]⟩) := by
  refine ⟨?_, ?_, ?_⟩ <;> intros <;> simp [processLine, hm, hp, *]

/-- C6 amended witness: the bare number `42` is forwarded to the sink. -/
theorem parsed_value_classification_witness :
    processLine parseLines ⟨none, []⟩ "data: N".data = ⟨none, [Json.num 42]⟩ :=
  (parsed_value_classification parseLines ⟨none, []⟩ "data: N".data (Json.num 42)
      (by decide) (by rfl)).2.1 none (by rfl) (by rfl)

/-- A line that is not a completion frame leaves `result` unchanged. -/
theorem processLine_result_of_not_completion (parse : List Char → Option Json)
    (st : StreamState) (l : List Char)
    (h : isCompletionLine parse l = false) :
    (processLine parse st l).result = st.result := by
  rw [processLine_factor]
  show lineResult parse l st.result = st.result
  by_cases hm : sseMarker.isPrefixOf l
  · simp only [lineResult, if_pos hm]
    cases hp : parse (l.drop 6) with
    | none => rfl
    | some v =>
      cases hg : jsGet v "type" with
      | error e => simp [hg]
      | ok t =>
        have hct : isCompleteTag t = false := by
          simpa [isCompletionLine, hm, hp, hg] using h
        simp [hg, hct]
  · simp [lineResult, hm]

/-- Folding non-completion lines preserves an unset `result`. -/
theorem foldl_result_none (parse : List Char → Option Json)
    (lines : List (List Char))
    (h : ∀ l ∈ lines, isCompletionLine parse l = false) :
    ∀ st : StreamState, st.result = none →
      (lines.foldl (processLine parse) st).result = none := by
  induction lines with
  | nil => intro st hst; exact hst
  | cons l ls ih =>
    intro st hst
    refine ih (fun x hx => h x (List.mem_cons_of_mem l hx)) _ ?_
    rw [processLine_result_of_not_completion parse st l (h l (List.mem_cons_self l ls))]
    exact hst

/-- C3: a stream that ends without any completion-discriminated frame having
been parsed makes `generateWriting` reject with the protocol error, whose
message is `'No result received from stream'`; no result reaches the
caller. -/
theorem no_completion_rejects_protocol (parse : List Char → Option Json)
    (chunks : List (List Nat))
    (h : ∀ l ∈ linesOf chunks, isCompletionLine parse l = false) :
    (generateWriting parse true chunks).1 = .error .protocolError ∧
    GenError.protocolError.message = "No result received from stream" := by
  refine ⟨?_, rfl⟩
  have hb : ('\n' : Char) ∉ initLoop.buffer := by simp [initLoop]
  have hrun := runChunks_flatten parse initLoop hb chunks
  have hres : (runChunks parse initLoop chunks).sess.result = none := by
    rw [hrun]
    show ((splitNl ([] ++ (decodeBytes [] chunks.flatten).2)).dropLast.foldl
      (processLine parse) ⟨none, []⟩).result = none
    refine foldl_result_none parse _ ?_ _ rfl
    intro l hl
    refine h l ?_
    simpa [linesOf] using hl
  simp only [generateWriting, if_true]
  rw [hres]

/-- C3 witness: a stream carrying only the progress frame `data: B` rejects
with the protocol error. -/
theorem no_completion_rejects_protocol_witness :
    (∀ l ∈ linesOf ["data: B\n".data.map Char.toNat],
      isCompletionLine parseLines l = false) ∧
    (generateWriting parseLines true ["data: B\n".data.map Char.toNat]).1 =
      .error .protocolError :=
  ⟨by decide,
   (no_completion_rejects_protocol parseLines ["data: B\n".data.map Char.toNat]
     (by decide)).1⟩

theorem splitNl_line {l : List Char} (h : ('\n' : Char) ∉ l)
    (rest : List Char) : splitNl (l ++ '\n' :: rest) = l :: splitNl rest := by
  rw [splitNl_no_nl_append h]
  have e : splitNl (('\n' : Char) :: rest) = [] :: splitNl rest := by
    simp [splitNl]
  rw [e]
  simp [mergeFirst]

theorem splitNl_framesText (bodies : List (List Char))
    (h : ∀ b ∈ bodies, ('\n' : Char) ∉ b) :
    splitNl (framesText bodies) =
      (bodies.map fun b => sseMarker ++ b) ++ [[]] := by
  induction bodies with
  | nil => rfl
  | cons b bs ih =>
    have hb : ('\n' : Char) ∉ sseMarker ++ b := by
      intro hx
      rcases List.mem_append.mp hx with h1 | h2
      · exact absurd h1 (by decide)
      · exact h b (List.mem_cons_self b bs) h2
    have e1 : framesText (b :: bs) = (sseMarker ++ b) ++ ('\n' :: framesText bs) := by
      simp [framesText, frameText]
    rw [e1, splitNl_line hb, ih (fun x hx => h x (List.mem_cons_of_mem b hx))]
    rfl

theorem marked_isPrefixOf (b : List Char) :
    sseMarker.isPrefixOf (sseMarker ++ b) = true := by
  rw [List.isPrefixOf_iff_prefix]
  exact List.prefix_append _ _

theorem marked_drop (b : List Char) : (sseMarker ++ b).drop 6 = b := by
  have h6 : sseMarker.length = 6 := by decide
  rw [← h6, List.drop_left]

theorem processLine_progress_line (parse : List Char → Option Json)
    (st : StreamState) (b : List Char) (v : Json)
    (hp : parse b = some v) (hv : IsProgressEvent v) :
    processLine parse st (sseMarker ++ b) =
      { st with sinkLog := st.sinkLog ++ [v] } := by
  obtain ⟨fs, rfl⟩ := hv.isObj
  have hg : jsGet (Json.obj fs) "type" = .ok (fs.lookup "type") := rfl
  have hct : isCompleteTag (fs.lookup "type") = false := hv.notComplete _ hg
  simp [processLine, marked_isPrefixOf, marked_drop, hp, hg, hct]

theorem processLine_completion_line (parse : List Char → Option Json)
    (st : StreamState) (b : List Char) (v r : Json)
    (hp : parse b = some v)
    (ht : jsGet v "type" = .ok (some (.str "complete")))
    (hd : jsGet v "data" = .ok (some r)) :
    processLine parse st (sseMarker ++ b) = ⟨some r, st.sinkLog ++ [v]⟩ := by
  have hct : isCompleteTag (some (Json.str "complete")) = true := rfl
  simp [processLine, marked_isPrefixOf, marked_drop, hp, ht, hd, hct]

theorem foldl_progress_lines (parse : List Char → Option Json)
    (bodies : List (List Char)) (vs : List Json)
    (hf : List.Forall₂ (fun b v => parse b = some v ∧ IsProgressEvent v) bodies vs) :
    ∀ st : StreamState,
      (bodies.map fun b => sseMarker ++ b).foldl (processLine parse) st =
        ⟨st.result, st.sinkLog ++ vs⟩ := by
  induction hf with
  | nil => intro st; simp
  | @cons b v bs vs2 hbv hrest ih =>
    intro st
    rw [List.map_cons, List.foldl_cons,
        processLine_progress_line parse st b v hbv.1 hbv.2, ih]
    simp

/-- C1: a stream made of newline-terminated `data: `-marked frames — valid
progress frames followed by one completion frame — delivered in any chunking,
makes `generateWriting` resolve with exactly the completion frame's
`data` field, and `onStatus` is invoked once per progress frame plus once for
the completion frame, in order. -/
theorem generateWriting_resolves_with_completion
    (parse : List Char → Option Json) (chunks : List (List Nat))
    (bodies : List (List Char)) (vs : List Json)
    (cbody : List Char) (vc : Json) (rfields : List (String × Json))
    (hdec : decodeBytes [] chunks.flatten = ([], framesText (bodies ++ [cbody])))
    (hnl : ∀ b ∈ bodies ++ [cbody], ('\n' : Char) ∉ b)
    (hprog : List.Forall₂ (fun b v => parse b = some v ∧ IsProgressEvent v) bodies vs)
    (hcp : parse cbody = some vc)
    (hct : jsGet vc "type" = .ok (some (.str "complete")))
    (hcd : jsGet vc "data" = .ok (some (.obj rfields))) :
    generateWriting parse true chunks = (.ok (.obj rfields), vs ++ [vc]) := by
  have hb : ('\n' : Char) ∉ initLoop.buffer := by simp [initLoop]
  have hrun := runChunks_flatten parse initLoop hb chunks
  have hsp := splitNl_framesText (bodies ++ [cbody]) hnl
  have hsess : runChunks parse initLoop chunks =
      ⟨[], [], ⟨some (.obj rfields), vs ++ [vc]⟩⟩ := by
    rw [hrun]
    show LoopState.mk (decodeBytes [] chunks.flatten).1
        ((splitNl ([] ++ (decodeBytes [] chunks.flatten).2)).getLastD [])
        ((splitNl ([] ++ (decodeBytes [] chunks.flatten).2)).dropLast.foldl
          (processLine parse) ⟨none, []⟩)
      = ⟨[], [], ⟨some (.obj rfields), vs ++ [vc]⟩⟩
    rw [hdec]
    simp only [List.nil_append, hsp, List.dropLast_concat, List.getLastD_concat,
      List.map_append, List.map_cons, List.map_nil, List.foldl_append]
    rw [foldl_progress_lines parse bodies vs hprog]
    simp only [List.foldl_cons, List.foldl_nil]
    rw [processLine_completion_line parse _ cbody vc (.obj rfields) hcp hct hcd]
    rfl
  unfold generateWriting
  rw [hsess]
  rfl

theorem progressVal_isProgressEvent : IsProgressEvent progressVal := by
  refine ⟨⟨_, rfl⟩, ⟨.str "writing", rfl⟩, ⟨.num 40, rfl⟩, ⟨.str "Drafting", rfl⟩, ?_⟩
  intro t ht
  have h := Except.ok.inj ht
  rw [← h]
  rfl

/-- C1 witness: the concrete stream `data: B\ndata: A\n` (one progress frame,
one completion frame) resolves to the completion frame's `data` and invokes
the sink once per frame, in order. -/
theorem generateWriting_resolves_with_completion_witness :
    generateWriting parseLines true ["data: B\ndata: A\n".data.map Char.toNat] =
      (.ok completedResult, [progressVal, completeVal]) :=
  generateWriting_resolves_with_completion parseLines
    ["data: B\ndata: A\n".data.map Char.toNat]
    ["B".data] [progressVal] "A".data completeVal
    [("status", Json.str "completed"), ("content", Json.str "Hello")]
    (by decide) (by decide)
    (List.Forall₂.cons ⟨rfl, progressVal_isProgressEvent⟩ List.Forall₂.nil)
    rfl rfl rfl

/-- C8 counterexample: `generateWriting` resolves with a `status: "failed"`
result (failure-with-result), and `handleGenerate` nevertheless reports stage
`complete` with progress 100 — not stage `error`, and not progress ≠ 100. -/
theorem failed_result_reported_complete :
    jsGet failedResult "status" = .ok (some (.str "failed")) ∧
    (handleGenerateFinish (.ok failedResult) []).2.2.stage = "complete" ∧
    (handleGenerateFinish (.ok failedResult) []).2.2.progress = 100 :=
  ⟨rfl, rfl, rfl⟩

/-- C8 amended: on any resolution of `generateWriting` — regardless of the
result's `status` — the app stores the result and reports stage `complete`
with progress 100; stage `error` (with progress 0) is reported only when the
promise rejects, in which case no result is stored. -/
theorem handleGenerateFinish_stage_rule (r : Json) (e : GenError)
    (h : List Json) :
    handleGenerateFinish (.ok r) h =
      (some r, r :: h.take 4,
       ⟨"complete", 100, "Writing generation complete!", none⟩) ∧
    handleGenerateFinish (.error e) h =
      (none, h, ⟨"error", 0, "Generation failed", some e.message⟩) :=
  ⟨rfl, rfl⟩

/-- C9: a session that resolves with a result prepends it to the first four
entries of the prior history: the new result is at index 0 and the length
never exceeds the capacity of 5. -/
theorem history_prepends_and_caps (r : Json) (h : List Json) :
    (handleGenerateFinish (.ok r) h).2.1 = r :: h.take 4 ∧
    (handleGenerateFinish (.ok r) h).2.1.length ≤ 5 := by
  refine ⟨rfl, ?_⟩
  show (r :: h.take 4).length ≤ 5
  have := List.length_take_le 4 h
  simp only [List.length_cons]
  omega

/-- An ok response (status 200–299) cannot be a 404. -/
theorem ok_not_404 {r : FetchResponse} (hok : r.ok = true) :
    ¬ r.status = 404 := by
  intro h
  rw [FetchResponse.ok, h] at hok
  simp at hok

/-- C10 counterexample: on an ok response whose body fails to parse,
`return response.json()` hands the promise back un-awaited, so its rejection
is adopted after the `try`/`catch` has exited: `getProfile` rejects instead
of resolving to `null`, refuting "resolves and never rejects ... whenever
the fetch or JSON parsing throws". -/
theorem json_rejection_escapes_catch :
    getProfile (.ok ⟨200, .error "bad json"⟩) = .error "bad json" ∧
    getProfile (.ok ⟨200, .error "bad json"⟩) ≠ .ok none :=
  ⟨rfl, fun h => Except.noConfusion h⟩

/-- C10 amended: `getProfile` resolves to `null` on a network failure, on a
404, and on any other non-ok status (the throw is caught); but on an ok
response it returns `response.json()` without awaiting it, so a body-parse
rejection escapes the `catch` and `getProfile` rejects with it; it resolves
to the parsed profile exactly on an ok response with a parseable body. -/
theorem getProfile_resolution_rule (r : FetchResponse) (msg : String) (j : Json) :
    getProfile (.error msg) = .ok none ∧
    (r.status = 404 → getProfile (.ok r) = .ok none) ∧
    (r.ok = false → getProfile (.ok r) = .ok none) ∧
    (r.ok = true → r.body = .error msg → getProfile (.ok r) = .error msg) ∧
    (r.ok = true → r.body = .ok j → getProfile (.ok r) = .ok (some j)) ∧
    (∀ resp : Except String FetchResponse, ∀ jv : Json,
      getProfile resp = .ok (some jv) →
      ∃ rr, resp = .ok rr ∧ rr.ok = true ∧ rr.body = .ok jv) := by
  refine ⟨rfl, ?_, ?_, ?_, ?_, ?_⟩
  · intro h404
    simp [getProfile, getProfileAttempt, h404]
  · intro hok
    by_cases h404 : r.status = 404
    · simp [getProfile, getProfileAttempt, h404]
    · simp [getProfile, getProfileAttempt, h404, hok]
  · intro hok hbody
    simp [getProfile, getProfileAttempt, ok_not_404 hok, hok, hbody]
  · intro hok hbody
    simp [getProfile, getProfileAttempt, ok_not_404 hok, hok, hbody]
  · intro resp jv hj
    cases resp with
    | error m => simp [getProfile, getProfileAttempt] at hj
    | ok rr =>
      by_cases h404 : rr.status = 404
      · simp [getProfile, getProfileAttempt, h404] at hj
      · by_cases hok : rr.ok
        · cases hb : rr.body with
          | error m => simp [getProfile, getProfileAttempt, h404, hok, hb] at hj
          | ok jb =>
            simp [getProfile, getProfileAttempt, h404, hok, hb] at hj
            exact ⟨rr, rfl, hok, by rw [hb, hj]⟩
        · simp [getProfile, getProfileAttempt, h404, hok] at hj

/-- C10 amended witness: concrete responses — network failure, 404, 500, ok
with a rejecting body (getProfile rejects), and ok with a parsed body. -/
theorem getProfile_resolution_rule_witness :
    getProfile (.error "network down") = .ok none ∧
    getProfile (.ok ⟨404, .error "no body"⟩) = .ok none ∧
    getProfile (.ok ⟨500, .ok (Json.num 1)⟩) = .ok none ∧
    getProfile (.ok ⟨200, .error "bad json"⟩) = .error "bad json" ∧
    getProfile (.ok ⟨200, .ok (Json.num 1)⟩) = .ok (some (Json.num 1)) :=
  ⟨(getProfile_resolution_rule ⟨404, .error "no body"⟩ "network down" (Json.num 1)).1,
   (getProfile_resolution_rule ⟨404, .error "no body"⟩ "x" (Json.num 1)).2.1 rfl,
   (getProfile_resolution_rule ⟨500, .ok (Json.num 1)⟩ "x" (Json.num 1)).2.2.1 (by decide),
   (getProfile_resolution_rule ⟨200, .error "bad json"⟩ "bad json" (Json.num 1)).2.2.2.1
     (by decide) rfl,
   (getProfile_resolution_rule ⟨200, .ok (Json.num 1)⟩ "x" (Json.num 1)).2.2.2.2.1
     (by decide) rfl⟩

